import Mathlib

/-!
Verification development for the GitHub CAE harvester
(`src/github_harvest/github_cae.py`).

The Python source is shallowly embedded: pure helpers become Lean
functions; the SQLite tables become explicit state records threaded
through the database helpers; `random.random()` draws, `random.choice`
picks and HTTP responses become explicit oracle parameters.  Python
floats (keyword weights, candidate scores) are modelled as exact
rationals, and Python dicts are modelled by their lookup functions
(`String → Option _` for `Dict[str, str]`, `String → List String` with
`[]` for an absent key for `Dict[str, List[str]]`).  String handling is
ASCII-faithful: `str.strip().lower()` is trimming whitespace and
lower-casing at the character-list level.
-/

namespace GithubCae

/-- Model of `normalize_term` from the source: `term.strip().lower()`, modelled at the
character-list level (drop whitespace on both ends, then lower-case). -/
def normalize_term (term : String) : String :=
  String.mk ((((term.data.dropWhile Char.isWhitespace).reverse.dropWhile
      Char.isWhitespace).reverse).map Char.toLower)

/-- Python's `sorted(list(set(l)))` / `sorted({...})` on string lists. -/
def sortDedup (l : List String) : List String :=
  l.toFinset.sort (· ≤ ·)

/-- A repository's accumulated `merged_tags_json` dict
(`{category: [terms...]}`) modelled by its lookup function; an absent
category is identified with the empty term list. -/
abbrev TagMap := String → List String

/-- A query's `hit_tags` dict (`{category: term}`) modelled by its lookup
function. -/
abbrev TagDict := String → Option String

/-- Model of `merge_repo_tags` from the source: every category present in the result
maps to `sorted(list(set(existing_terms ∪ incoming)))`; categories hit by
`hit_tags` additionally gain the incoming term. -/
def merge_repo_tags (existing : TagMap) (hit_tags : TagDict) : TagMap :=
  fun k =>
    match hit_tags k with
    | some v => sortDedup (v :: existing k)
    | none => sortDedup (existing k)

/-- A row of the `keywords` table as fetched by `db_get_active_keywords`
(weights are Python floats, modelled as exact rationals). -/
structure KeywordRow where
  id : Nat
  category : String
  term : String
  weight : ℚ
deriving DecidableEq, Repr

/-- Total sampling weight of a list of keyword rows. -/
def totalWeight (rows : List KeywordRow) : ℚ :=
  (rows.map (·.weight)).sum

/-- The scan of the `pick` loop in `make_random_query`: walk the rows
accumulating `upto`; return the first row with `upto >= rnum`, falling back
to the last row when the loop finishes without triggering. -/
def pickGo (rnum : ℚ) : ℚ → List KeywordRow → Option KeywordRow
  | _, [] => none
  | upto, row :: rest =>
    if rnum ≤ upto + row.weight then some row
    else
      match pickGo rnum (upto + row.weight) rest with
      | some r => some r
      | none => some row

/-- Model of `pick` from `make_random_query`.  `r` models the `rng.random()` draw in
`[0,1)` and `c` models the index drawn by the `rng.choice(rows)` fallback.
The empty-rows `RuntimeError` is modelled as `none`. -/
def pick (rows : List KeywordRow) (r : ℚ) (c : Nat) : Option KeywordRow :=
  if rows.isEmpty then none
  else if totalWeight rows ≤ 0 then rows[c]?
  else pickGo (r * totalWeight rows) 0 rows

/-- Model of `_build_numeric_qualifier` from the source; `ValueError` is modelled as
`Except.error` carrying the message. -/
def _build_numeric_qualifier (name : String) (min_value max_value : Option Int) :
    Except String (Option String) :=
  match min_value, max_value with
  | none, none => .ok none
  | some mn, none =>
    if mn < 0 then .error (name ++ " minimum must be >= 0")
    else .ok (some (name ++ ":>=" ++ toString mn))
  | none, some mx =>
    if mx < 0 then .error (name ++ " maximum must be >= 0")
    else .ok (some (name ++ ":<=" ++ toString mx))
  | some mn, some mx =>
    if mn < 0 then .error (name ++ " minimum must be >= 0")
    else if mx < 0 then .error (name ++ " maximum must be >= 0")
    else if mn > mx then .error (name ++ " minimum cannot be greater than maximum")
    else .ok (some (name ++ ":" ++ toString mn ++ ".." ++ toString mx))

/-- The eight optional numeric qualifier bounds taken by
`apply_repo_filters_to_query`. -/
structure RepoFilters where
  min_stars : Option Int := none
  max_stars : Option Int := none
  min_forks : Option Int := none
  max_forks : Option Int := none
  min_followers : Option Int := none
  max_followers : Option Int := none
  min_topics : Option Int := none
  max_topics : Option Int := none
deriving DecidableEq

/-- Model of `apply_repo_filters_to_query` from the source: append the non-empty
qualifier tokens to the base query. -/
def apply_repo_filters_to_query (base_query : String) (f : RepoFilters) :
    Except String String := do
  let q1 ← _build_numeric_qualifier "stars" f.min_stars f.max_stars
  let q2 ← _build_numeric_qualifier "forks" f.min_forks f.max_forks
  let q3 ← _build_numeric_qualifier "followers" f.min_followers f.max_followers
  let q4 ← _build_numeric_qualifier "topics" f.min_topics f.max_topics
  let qualifiers := ([q1, q2, q3, q4].filterMap id).filter (fun s => !s.isEmpty)
  if qualifiers.isEmpty then return base_query
  else return base_query ++ " " ++ String.intercalate " " qualifiers

/-! ### Facts about `sortDedup` -/

theorem sortDedup_toFinset (l : List String) : (sortDedup l).toFinset = l.toFinset :=
  Finset.sort_toFinset _ _

theorem sortDedup_congr {l₁ l₂ : List String} (h : l₁.toFinset = l₂.toFinset) :
    sortDedup l₁ = sortDedup l₂ := by
  unfold sortDedup
  rw [h]

theorem sortDedup_nodup (l : List String) : (sortDedup l).Nodup :=
  Finset.sort_nodup _ _

theorem merge_repo_tags_some {E : TagMap} {h : TagDict} {k : String} {v : String}
    (hk : h k = some v) : merge_repo_tags E h k = sortDedup (v :: E k) := by
  unfold merge_repo_tags
  rw [hk]

theorem merge_repo_tags_none {E : TagMap} {h : TagDict} {k : String}
    (hk : h k = none) : merge_repo_tags E h k = sortDedup (E k) := by
  unfold merge_repo_tags
  rw [hk]

theorem merge_repo_tags_toFinset (E : TagMap) (h : TagDict) (k : String) :
    (merge_repo_tags E h k).toFinset
      = (E k).toFinset ∪ ((h k).elim ∅ fun v => {v}) := by
  cases hk : h k with
  | none => rw [merge_repo_tags_none hk, sortDedup_toFinset]; simp
  | some v =>
    rw [merge_repo_tags_some hk, sortDedup_toFinset]
    simp [Finset.insert_eq, Finset.union_comm]

theorem merge_repo_tags_nodup (E : TagMap) (h : TagDict) (k : String) :
    (merge_repo_tags E h k).Nodup := by
  cases hk : h k with
  | none => rw [merge_repo_tags_none hk]; exact sortDedup_nodup _
  | some v => rw [merge_repo_tags_some hk]; exact sortDedup_nodup _

/-- C4: `merge_repo_tags` is idempotent (merging the same `hit_tags` twice
equals merging once), order-independent (merging `h₁` then `h₂` equals
merging `h₂` then `h₁`), and per category the result is the deduplicated
union of the existing terms and the incoming term (when the category is
hit). -/
theorem merge_repo_tags_algebra (E : TagMap) (h h₁ h₂ : TagDict) :
    merge_repo_tags (merge_repo_tags E h) h = merge_repo_tags E h
    ∧ merge_repo_tags (merge_repo_tags E h₁) h₂ = merge_repo_tags (merge_repo_tags E h₂) h₁
    ∧ ∀ k, (merge_repo_tags E h k).toFinset
            = (E k).toFinset ∪ ((h k).elim ∅ fun v => {v})
          ∧ (merge_repo_tags E h k).Nodup := by
  refine ⟨?_, ?_, fun k => ⟨merge_repo_tags_toFinset E h k, merge_repo_tags_nodup E h k⟩⟩
  · funext k
    cases hk : h k with
    | none =>
      conv_lhs => rw [merge_repo_tags_none hk, merge_repo_tags_none hk]
      conv_rhs => rw [merge_repo_tags_none hk]
      exact sortDedup_congr (sortDedup_toFinset _)
    | some v =>
      conv_lhs => rw [merge_repo_tags_some hk, merge_repo_tags_some hk]
      conv_rhs => rw [merge_repo_tags_some hk]
      apply sortDedup_congr
      simp [sortDedup_toFinset]
  · funext k
    cases hk1 : h₁ k with
    | none =>
      cases hk2 : h₂ k with
      | none =>
        conv_lhs => rw [merge_repo_tags_none hk2, merge_repo_tags_none hk1]
        conv_rhs => rw [merge_repo_tags_none hk1, merge_repo_tags_none hk2]
      | some v₂ =>
        conv_lhs => rw [merge_repo_tags_some hk2, merge_repo_tags_none hk1]
        conv_rhs => rw [merge_repo_tags_none hk1, merge_repo_tags_some hk2]
        apply sortDedup_congr
        simp [sortDedup_toFinset]
    | some v₁ =>
      cases hk2 : h₂ k with
      | none =>
        conv_lhs => rw [merge_repo_tags_none hk2, merge_repo_tags_some hk1]
        conv_rhs => rw [merge_repo_tags_some hk1, merge_repo_tags_none hk2]
        apply sortDedup_congr
        simp [sortDedup_toFinset]
      | some v₂ =>
        conv_lhs => rw [merge_repo_tags_some hk2, merge_repo_tags_some hk1]
        conv_rhs => rw [merge_repo_tags_some hk1, merge_repo_tags_some hk2]
        apply sortDedup_congr
        simp [sortDedup_toFinset, Finset.Insert.comm]

/-! ### Facts about the weighted `pick` -/

theorem pickGo_eq_none {rnum upto : ℚ} {l : List KeywordRow}
    (h : pickGo rnum upto l = none) : l = [] := by
  cases l with
  | nil => rfl
  | cons row rest =>
    exfalso
    unfold pickGo at h
    by_cases hc : rnum ≤ upto + row.weight
    · simp [hc] at h
    · rw [if_neg hc] at h
      cases hr : pickGo rnum (upto + row.weight) rest <;> simp [hr] at h

theorem pickGo_pos_weight :
    ∀ (l : List KeywordRow) (upto : ℚ) {rnum : ℚ} {row : KeywordRow},
      upto < rnum → rnum < upto + (l.map (·.weight)).sum →
      pickGo rnum upto l = some row → row.weight ≠ 0 := by
  intro l
  induction l with
  | nil =>
    intro upto rnum row _ _ h3
    simp [pickGo] at h3
  | cons a rest ih =>
    intro upto rnum row h1 h2 h3
    unfold pickGo at h3
    by_cases hc : rnum ≤ upto + a.weight
    · rw [if_pos hc] at h3
      obtain rfl : a = row := by simpa using h3
      intro hw
      rw [hw, add_zero] at hc
      exact absurd hc (not_le.mpr h1)
    · rw [if_neg hc] at h3
      have h1' : upto + a.weight < rnum := not_le.mp hc
      cases hr : pickGo rnum (upto + a.weight) rest with
      | some r =>
        rw [hr] at h3
        obtain rfl : r = row := by simpa using h3
        refine ih (upto + a.weight) h1' ?_ hr
        simp only [List.map_cons, List.sum_cons] at h2
        linarith
      | none =>
        exfalso
        have : rest = [] := pickGo_eq_none hr
        subst this
        simp only [List.map_cons, List.map_nil, List.sum_cons, List.sum_nil, add_zero] at h2
        linarith

/-- C5 (amended): for every list of keyword rows and every draw `r` in the
OPEN interval `(0,1)` — the original claim's `[0,1)` fails at `r = 0`, see
the counterexample — if the total weight is positive (and some row has
positive weight) the weighted pick never returns a row of weight zero; and
whenever the total weight is `≤ 0` the pick is the uniform `rng.choice`
over all rows (modelled by the oracle index `c`). -/
theorem pick_weighted_spec (rows : List KeywordRow) (r : ℚ) (c : Nat) :
    (0 < r → r < 1 → 0 < totalWeight rows → (∃ p ∈ rows, 0 < p.weight) →
      (pick rows r c).map (·.weight) ≠ some 0)
    ∧ (totalWeight rows ≤ 0 → c < rows.length → pick rows r c = rows[c]?) := by
  constructor
  · intro hr0 hr1 htot _hpos hmap
    unfold pick at hmap
    by_cases he : rows.isEmpty
    · rw [if_pos he] at hmap
      simp at hmap
    · rw [if_neg he, if_neg (not_le.mpr htot)] at hmap
      cases hp : pickGo (r * totalWeight rows) 0 rows with
      | none => rw [hp] at hmap; simp at hmap
      | some row =>
        rw [hp] at hmap
        have hw : row.weight = 0 := by simpa using hmap
        refine pickGo_pos_weight rows 0 (mul_pos hr0 htot) ?_ hp hw
        rw [zero_add]
        exact mul_lt_of_lt_one_left htot hr1
  · intro h1 h2
    cases rows with
    | nil => simp at h2
    | cons a l =>
      unfold pick
      rw [if_neg (by simp), if_pos h1]

/-- Concrete inputs refuting C5 as literally stated: two rows with weights
`0` and `1`, and the draw `r = 0`, which lies in `[0,1)`. -/
def cexRows : List KeywordRow :=
  [⟨1, "domain", "zero", 0⟩, ⟨2, "domain", "one", 1⟩]

/-- C5 counterexample: with rows of weights `[0, 1]` (total weight `1 > 0`,
a positive-weight row exists) and the draw `r = 0` — which the claim's
half-open interval `[0,1)` admits — `pick` returns the first row, whose
weight is zero. -/
theorem pick_zero_draw_cex :
    0 < totalWeight cexRows ∧ (∃ p ∈ cexRows, 0 < p.weight)
    ∧ (0:ℚ) ≤ 0 ∧ (0:ℚ) < 1
    ∧ (pick cexRows 0 0).map (·.weight) = some 0 := by
  have htot : totalWeight cexRows = 1 := by
    simp [totalWeight, cexRows]
  refine ⟨by rw [htot]; norm_num, ⟨⟨2, "domain", "one", 1⟩, by simp [cexRows], by norm_num⟩,
    le_refl _, by norm_num, ?_⟩
  unfold pick
  rw [if_neg (by simp [cexRows]), if_neg (by rw [htot]; norm_num)]
  rw [htot, mul_one]
  norm_num [cexRows, pickGo]

/-- C5 witness for the amended theorem: a singleton positive-weight row and
the draw `r = 1/2` never yield a zero-weight result. -/
def demoPickRows : List KeywordRow := [⟨1, "domain", "cfd", 1⟩]

theorem pick_weighted_spec_witness :
    (pick demoPickRows (1/2) 0).map (·.weight) ≠ some 0 :=
  (pick_weighted_spec demoPickRows (1/2) 0).1 (by norm_num) (by norm_num)
    (by simp [totalWeight, demoPickRows]) ⟨⟨1, "domain", "cfd", 1⟩, by simp [demoPickRows], by norm_num⟩

/-! ### Numeric qualifier validation -/

/-- C6: `_build_numeric_qualifier` rejects exactly when `min < 0`, `max < 0`,
or both bounds are given with `min > max`; it returns no qualifier when both
bounds are absent, `name:min..max` when both are given with `min ≤ max`
(`min = max` included), `name:>=min` with only a minimum, and `name:<=max`
with only a maximum. -/
theorem build_numeric_qualifier_spec (name : String) (mn mx : Option Int) :
    ((∃ e, _build_numeric_qualifier name mn mx = .error e) ↔
      ((∃ a, mn = some a ∧ a < 0) ∨ (∃ b, mx = some b ∧ b < 0)
        ∨ (∃ a b, mn = some a ∧ mx = some b ∧ b < a)))
    ∧ _build_numeric_qualifier name none none = .ok none
    ∧ (∀ a b : Int, 0 ≤ a → 0 ≤ b → a ≤ b →
        _build_numeric_qualifier name (some a) (some b)
          = .ok (some (name ++ ":" ++ toString a ++ ".." ++ toString b)))
    ∧ (∀ a : Int, 0 ≤ a →
        _build_numeric_qualifier name (some a) none
          = .ok (some (name ++ ":>=" ++ toString a)))
    ∧ (∀ b : Int, 0 ≤ b →
        _build_numeric_qualifier name none (some b)
          = .ok (some (name ++ ":<=" ++ toString b))) := by
  refine ⟨?_, rfl, ?_, ?_, ?_⟩
  · constructor
    · rintro ⟨e, he⟩
      cases mn with
      | none =>
        cases mx with
        | none => simp [_build_numeric_qualifier] at he
        | some b =>
          by_cases hb : b < 0
          · exact Or.inr (Or.inl ⟨b, rfl, hb⟩)
          · simp only [_build_numeric_qualifier, if_neg hb] at he
            exact Except.noConfusion he
      | some a =>
        cases mx with
        | none =>
          by_cases ha : a < 0
          · exact Or.inl ⟨a, rfl, ha⟩
          · simp only [_build_numeric_qualifier, if_neg ha] at he
            exact Except.noConfusion he
        | some b =>
          by_cases ha : a < 0
          · exact Or.inl ⟨a, rfl, ha⟩
          · by_cases hb : b < 0
            · exact Or.inr (Or.inl ⟨b, rfl, hb⟩)
            · by_cases hab : a > b
              · exact Or.inr (Or.inr ⟨a, b, rfl, rfl, hab⟩)
              · simp only [_build_numeric_qualifier, if_neg ha, if_neg hb, if_neg hab] at he
                exact Except.noConfusion he
    · rintro (⟨a, rfl, ha⟩ | ⟨b, rfl, hb⟩ | ⟨a, b, rfl, rfl, hab⟩)
      · cases mx with
        | none =>
          exact ⟨name ++ " minimum must be >= 0",
            by simp only [_build_numeric_qualifier, if_pos ha]⟩
        | some b =>
          exact ⟨name ++ " minimum must be >= 0",
            by simp only [_build_numeric_qualifier, if_pos ha]⟩
      · cases mn with
        | none =>
          exact ⟨name ++ " maximum must be >= 0",
            by simp only [_build_numeric_qualifier, if_pos hb]⟩
        | some a =>
          by_cases ha : a < 0
          · exact ⟨name ++ " minimum must be >= 0",
              by simp only [_build_numeric_qualifier, if_pos ha]⟩
          · exact ⟨name ++ " maximum must be >= 0",
              by simp only [_build_numeric_qualifier, if_neg ha, if_pos hb]⟩
      · by_cases ha : a < 0
        · exact ⟨name ++ " minimum must be >= 0",
            by simp only [_build_numeric_qualifier, if_pos ha]⟩
        · by_cases hb : b < 0
          · exact ⟨name ++ " maximum must be >= 0",
              by simp only [_build_numeric_qualifier, if_neg ha, if_pos hb]⟩
          · exact ⟨name ++ " minimum cannot be greater than maximum",
              by simp only [_build_numeric_qualifier, if_neg ha, if_neg hb,
                if_pos (show a > b from hab)]⟩
  · intro a b ha hb hab
    simp only [_build_numeric_qualifier, if_neg (show ¬a < 0 by omega),
      if_neg (show ¬b < 0 by omega), if_neg (show ¬a > b by omega)]
  · intro a ha
    simp only [_build_numeric_qualifier, if_neg (show ¬a < 0 by omega)]
  · intro b hb
    simp only [_build_numeric_qualifier, if_neg (show ¬b < 0 by omega)]

/-- C6 witness: both bounds equal to `1` (the `min = max` case) produce the
range qualifier `stars:1..1`. -/
theorem build_numeric_qualifier_spec_witness :
    _build_numeric_qualifier "stars" (some 1) (some 1)
      = .ok (some ("stars" ++ ":" ++ toString (1:Int) ++ ".." ++ toString (1:Int))) :=
  (build_numeric_qualifier_spec "stars" (some 1) (some 1)).2.2.1 1 1
    (by decide) (by decide) (by decide)

/-! ### Candidate mining (tokenizer, vocabulary filter, candidate upsert) -/

/-- Python's `needle in hay` substring test, at the character-list level:
`charsLeadWith needle l` holds when `l` starts with `needle`. -/
def charsLeadWith : List Char → List Char → Bool
  | [], _ => true
  | _ :: _, [] => false
  | a :: as, b :: bs => a == b && charsLeadWith as bs

def charsContain (needle : List Char) : List Char → Bool
  | [] => charsLeadWith needle []
  | c :: rest => charsLeadWith needle (c :: rest) || charsContain needle rest

/-- Python `needle in hay` for strings (Python substring containment). -/
def str_contains (hay needle : String) : Bool :=
  charsContain needle.data hay.data

/-- The `STOPWORDS` set literal from the source (duplicates immaterial). -/
def STOPWORDS : List String :=
  ["the", "and", "or", "a", "an", "for", "to", "of", "in", "on", "with", "by",
   "this", "that", "based", "using", "use", "uses", "used", "from",
   "code", "codes", "project", "repo", "repository", "library", "framework",
   "tool", "tools", "software",
   "open", "source", "opensource", "open-source",
   "solver", "simulation", "simulator", "engine",
   "github", "gitlab", "example", "examples", "tutorial", "docs", "documentation"]

/-- Character class `[a-zA-Z0-9\-\_]` used by the tokenizer split. -/
def is_word_char (c : Char) : Bool :=
  c.isAlphanum || c = '-' || c = '_'

/-- Tokenizer split `re.split(r"[^a-zA-Z0-9\-\_]+", ·)` modelled as splitting on non-word
characters (extra empty pieces are filtered later, as in the source). -/
def split_non_word (acc : List Char) : List Char → List String
  | [] => [String.mk acc.reverse]
  | c :: rest =>
    if is_word_char c then split_non_word (c :: acc) rest
    else String.mk acc.reverse :: split_non_word [] rest

/-- Match against `TOKEN_RE = [a-z0-9][a-z0-9\-\_]{2,48}$` via `re.match`:
an anchored match forces an alphanumeric first character and total length
3 to 49 over the word-character class. -/
def TOKEN_RE_match (t : String) : Bool :=
  match t.data with
  | [] => false
  | c :: rest =>
    (c.isDigit || c.isLower) && decide (2 ≤ rest.length) && decide (rest.length ≤ 48)
      && rest.all (fun d => d.isDigit || d.isLower || d = '-' || d = '_')

/-- The per-token filters of `extract_candidate_terms`: non-empty, not a
stop word, not purely numeric, matches `TOKEN_RE`, and not one of the
generic doc tokens. -/
def keep_token (t : String) : Bool :=
  !t.isEmpty && !STOPWORDS.contains t && !(t.data.all (·.isDigit)) && TOKEN_RE_match t
    && !(["readme", "docs", "doc", "test", "tests"].contains t)

/-- Model of `extract_candidate_terms` from the source: lower-case, split on
non-word characters, normalize and filter each piece. -/
def extract_candidate_terms (text : String) : List String :=
  if text.isEmpty then []
  else ((split_non_word [] (text.data.map Char.toLower)).map normalize_term).filter keep_token

/-- The body of `should_skip_candidate_term` after its initial
normalization: skip empty tokens, exact keyword matches, and tokens in a
substring relation with a (non-empty) keyword term. -/
def should_skip_core (t : String) (existing : List String) : Bool :=
  if t.isEmpty then true
  else if existing.contains t then true
  else existing.any fun kw => !kw.isEmpty && (str_contains t kw || str_contains kw t)

/-- Model of `should_skip_candidate_term` from the source. -/
def should_skip_candidate_term (term : String) (existing : List String) : Bool :=
  should_skip_core (normalize_term term) existing

/-- One evidence record of a candidate's `sources_json`. -/
structure SourceRec where
  repo_full_name : String
  sourceField : String
  evidence : String
deriving DecidableEq, Repr

/-- A row of the `keyword_candidates` table (scores are Python floats,
modelled as exact rationals). -/
structure CandidateRow where
  suggested_category : Option String
  score : ℚ
  occurrences : Nat
  first_seen_at : String
  last_seen_at : String
  sources : List SourceRec
  status : String
deriving DecidableEq, Repr

/-- The `keyword_candidates` table keyed by its unique `term` column. -/
abbrev CandMap := String → Option CandidateRow

/-- Model of `db_add_candidate` from the source: normalize the term, then either
update the existing row (score += inc, occurrences += 1, bump
`last_seen_at`, append the evidence record while fewer than 30 are stored)
or insert a fresh `pending` row with score = inc and occurrences = 1. -/
def db_add_candidate (cands : CandMap) (term fieldName repo_full_name : String)
    (score_inc : ℚ) (now : String) : CandMap :=
  fun x =>
    if x = normalize_term term then
      match cands (normalize_term term) with
      | some row =>
        some { row with
          score := row.score + score_inc
          occurrences := row.occurrences + 1
          last_seen_at := now
          sources :=
            if row.sources.length < 30
            then row.sources ++ [⟨repo_full_name, fieldName, normalize_term term⟩]
            else row.sources }
      | none =>
        some { suggested_category := none, score := score_inc, occurrences := 1,
               first_seen_at := now, last_seen_at := now,
               sources := [⟨repo_full_name, fieldName, normalize_term term⟩],
               status := "pending" }
    else cands x

/-- A row of the `keywords` table as relevant to candidate extraction. -/
structure KeywordEntry where
  category : String
  term : String
  weight : ℚ
  status : String

/-- One scanned row of the `repos` table in `run_extract_candidates`:
`full_name`, the description taken from the raw `repo_json` snapshot, and
the parsed `topics_json` list. -/
structure RepoScan where
  full_name : String
  description : Option String
  topics : List String

/-- Model of `SELECT DISTINCT term FROM keywords` with the `if r[0]` truthiness
filter, normalized (the comprehension builds a set; a list with duplicates
is observationally identical for membership tests). -/
def existingTerms (keywords : List KeywordEntry) : List String :=
  (keywords.filter (fun k => !k.term.isEmpty)).map (fun k => normalize_term k.term)

/-- The description-token loop body of `run_extract_candidates`
(score increment 0.3). -/
def process_desc_token (existing : List String) (full_name now : String)
    (cands : CandMap) (t : String) : CandMap :=
  if STOPWORDS.contains t then cands
  else if should_skip_candidate_term t existing then cands
  else db_add_candidate cands t "description" full_name (3/10) now

/-- The topic-token loop body of `run_extract_candidates`
(score increment 1.0). -/
def process_topic_token (existing : List String) (full_name now : String)
    (cands : CandMap) (topic : String) : CandMap :=
  if (normalize_term topic).isEmpty || STOPWORDS.contains (normalize_term topic) then cands
  else if should_skip_candidate_term (normalize_term topic) existing then cands
  else db_add_candidate cands (normalize_term topic) "topic" full_name 1 now

/-- Processing of one scanned repo row in `run_extract_candidates`:
description tokens first, then topics. -/
def process_repo (existing : List String) (now : String)
    (cands : CandMap) (row : RepoScan) : CandMap :=
  row.topics.foldl (process_topic_token existing row.full_name now)
    ((extract_candidate_terms (row.description.getD "")).foldl
      (process_desc_token existing row.full_name now) cands)

/-- Model of `run_extract_candidates` from the source, over the scanned repo rows
(the trailing `UPDATE ... WHERE 1=0` is a no-op and is omitted). -/
def run_extract_candidates (keywords : List KeywordEntry) (rows : List RepoScan)
    (cands : CandMap) (now : String) : CandMap :=
  rows.foldl (process_repo (existingTerms keywords) now) cands

/-- Candidate score of an optional row (`0` when absent). -/
def candScore (o : Option CandidateRow) : ℚ :=
  match o with
  | some r => r.score
  | none => 0

/-- Candidate occurrence count of an optional row (`0` when absent). -/
def candOcc (o : Option CandidateRow) : Nat :=
  match o with
  | some r => r.occurrences
  | none => 0

/-- An interleaving of topic observations (`true`, increment 1.0) and
description observations (`false`, increment 0.3) of one term, exactly as
`run_extract_candidates` feeds them to `db_add_candidate`. -/
def applyObservations (cands : CandMap) (term repo : String) (obs : List Bool)
    (now : String) : CandMap :=
  obs.foldl (fun acc isTopic =>
    db_add_candidate acc term (if isTopic then "topic" else "description") repo
      (if isTopic then 1 else 3/10) now) cands

theorem db_add_candidate_self (cands : CandMap) (term fieldName repo : String)
    (inc : ℚ) (now : String) :
    candScore (db_add_candidate cands term fieldName repo inc now (normalize_term term))
        = candScore (cands (normalize_term term)) + inc
    ∧ candOcc (db_add_candidate cands term fieldName repo inc now (normalize_term term))
        = candOcc (cands (normalize_term term)) + 1 := by
  unfold db_add_candidate
  rw [if_pos rfl]
  cases h : cands (normalize_term term) with
  | none => simp [candScore, candOcc, zero_add]
  | some row => simp [candScore, candOcc]

theorem db_add_candidate_other {x : String} (cands : CandMap) {term : String}
    (fieldName repo : String) (inc : ℚ) (now : String)
    (hx : x ≠ normalize_term term) :
    db_add_candidate cands term fieldName repo inc now x = cands x := by
  unfold db_add_candidate
  rw [if_neg hx]

theorem applyObservations_spec (term repo now : String) :
    ∀ (obs : List Bool) (cands : CandMap),
      candScore (applyObservations cands term repo obs now (normalize_term term))
        = candScore (cands (normalize_term term))
          + ((obs.countP (fun b => b) : ℚ) + (3/10) * (obs.countP (fun b => !b) : ℚ))
      ∧ candOcc (applyObservations cands term repo obs now (normalize_term term))
        = candOcc (cands (normalize_term term)) + obs.length := by
  intro obs
  induction obs with
  | nil =>
    intro cands
    simp [applyObservations]
  | cons b bs ih =>
    intro cands
    have hfold : applyObservations cands term repo (b :: bs) now
        = applyObservations
            (db_add_candidate cands term (if b then "topic" else "description") repo
              (if b then 1 else 3/10) now) term repo bs now := rfl
    obtain ⟨ihs, iho⟩ := ih (db_add_candidate cands term
      (if b then "topic" else "description") repo (if b then 1 else 3/10) now)
    obtain ⟨hs, ho⟩ := db_add_candidate_self cands term
      (if b then "topic" else "description") repo (if b then 1 else 3/10) now
    rw [hfold]
    constructor
    · rw [ihs, hs]
      cases b with
      | true => simp [List.countP_cons]; ring
      | false => simp [List.countP_cons]; ring
    · rw [iho, ho]
      simp [List.length_cons]
      omega

/-- C7: starting from no candidate row for a term, any interleaving of `N`
topic observations (increment 1.0) and `M` description observations
(increment 0.3) leaves the `keyword_candidates` row for that term with
score `1.0·N + 0.3·M` (exact, since floats are modelled as rationals) and
occurrences `N + M`. -/
theorem candidate_scoring (cands : CandMap) (term repo now : String) (obs : List Bool)
    (h : cands (normalize_term term) = none) :
    candScore (applyObservations cands term repo obs now (normalize_term term))
      = (obs.countP (fun b => b) : ℚ) + (3/10) * (obs.countP (fun b => !b) : ℚ)
    ∧ candOcc (applyObservations cands term repo obs now (normalize_term term))
      = obs.countP (fun b => b) + obs.countP (fun b => !b) := by
  obtain ⟨hs, ho⟩ := applyObservations_spec term repo now obs cands
  rw [h] at hs ho
  refine ⟨by rw [hs]; simp [candScore], ?_⟩
  rw [ho]
  simp only [candOcc, zero_add]
  rw [List.length_eq_countP_add_countP (fun b => b) obs]
  congr 1
  apply List.countP_congr
  intro a _
  cases a <;> rfl

/-- C7 witness: observing `petsc` via topic, description, topic from an
empty candidate table. -/
def demoCands0 : CandMap := fun _ => none

theorem candidate_scoring_witness :
    candScore (applyObservations demoCands0 "petsc" "a/b" [true, false, true] "T"
        (normalize_term "petsc"))
      = (([true, false, true].countP (fun b => b) : ℚ)
          + (3/10) * ([true, false, true].countP (fun b => !b) : ℚ))
    ∧ candOcc (applyObservations demoCands0 "petsc" "a/b" [true, false, true] "T"
        (normalize_term "petsc"))
      = [true, false, true].countP (fun b => b) + [true, false, true].countP (fun b => !b) :=
  candidate_scoring demoCands0 "petsc" "a/b" "T" [true, false, true] rfl

/-! ### C8: tokens related to active keyword terms are never recorded -/

theorem process_desc_token_preserve {existing : List String} {K : String}
    (hskip : should_skip_core K existing = true) (fn now : String)
    (cands : CandMap) (t : String) :
    process_desc_token existing fn now cands t K = cands K := by
  unfold process_desc_token
  by_cases h1 : STOPWORDS.contains t
  · rw [if_pos h1]
  · rw [if_neg h1]
    by_cases h2 : should_skip_candidate_term t existing = true
    · rw [if_pos h2]
    · rw [if_neg h2]
      apply db_add_candidate_other
      intro hK
      apply h2
      unfold should_skip_candidate_term
      rw [← hK]
      exact hskip

theorem process_topic_token_preserve {existing : List String} {K : String}
    (hskip : should_skip_core K existing = true) (fn now : String)
    (cands : CandMap) (topic : String) :
    process_topic_token existing fn now cands topic K = cands K := by
  unfold process_topic_token
  by_cases h1 : ((normalize_term topic).isEmpty || STOPWORDS.contains (normalize_term topic)) = true
  · rw [if_pos h1]
  · rw [if_neg h1]
    by_cases h2 : should_skip_candidate_term (normalize_term topic) existing = true
    · rw [if_pos h2]
    · rw [if_neg h2]
      apply db_add_candidate_other
      intro hK
      apply h2
      unfold should_skip_candidate_term
      rw [← hK]
      exact hskip

theorem foldl_candmap_preserve {β : Type} (step : CandMap → β → CandMap) (K : String)
    (hstep : ∀ (c : CandMap) (b : β), step c b K = c K) :
    ∀ (l : List β) (cands : CandMap), (l.foldl step cands) K = cands K := by
  intro l
  induction l with
  | nil => intro cands; rfl
  | cons b bs ih =>
    intro cands
    rw [List.foldl_cons, ih, hstep]

theorem process_repo_preserve {existing : List String} {K : String}
    (hskip : should_skip_core K existing = true) (now : String)
    (cands : CandMap) (row : RepoScan) :
    process_repo existing now cands row K = cands K := by
  unfold process_repo
  rw [foldl_candmap_preserve _ _ (fun c b => process_topic_token_preserve hskip _ _ c b),
    foldl_candmap_preserve _ _ (fun c b => process_desc_token_preserve hskip _ _ c b)]

/-- C8: during candidate extraction, a token that exactly equals, is a
substring of, or contains as a substring some currently active (non-empty)
keyword term never creates or updates a `keyword_candidates` row: the
candidate table is unchanged at that token's key.  (The code actually
filters against ALL keyword terms regardless of status, a superset of the
active ones, so every such token is indeed skipped.) -/
theorem related_token_never_recorded
    (keywords : List KeywordEntry) (rows : List RepoScan) (cands : CandMap)
    (now tok : String) (e : KeywordEntry) (he : e ∈ keywords)
    (_hact : e.status = "active") (hne : normalize_term e.term ≠ "")
    (hrel : normalize_term tok = normalize_term e.term
      ∨ str_contains (normalize_term e.term) (normalize_term tok) = true
      ∨ str_contains (normalize_term tok) (normalize_term e.term) = true) :
    run_extract_candidates keywords rows cands now (normalize_term tok)
      = cands (normalize_term tok) := by
  have hterm_ne : e.term ≠ "" := by
    intro hh
    apply hne
    rw [hh]
    rfl
  have hmem : normalize_term e.term ∈ existingTerms keywords := by
    unfold existingTerms
    exact List.mem_map.mpr ⟨e, List.mem_filter.mpr ⟨he, by
      rw [Bool.not_eq_true']
      exact Bool.eq_false_iff.mpr (fun hh => hterm_ne ((String.isEmpty_iff _).mp hh))⟩, rfl⟩
  have hkw_ne : (!(normalize_term e.term).isEmpty) = true := by
    rw [Bool.not_eq_true']
    exact Bool.eq_false_iff.mpr (fun hh => hne ((String.isEmpty_iff _).mp hh))
  have hskip : should_skip_core (normalize_term tok) (existingTerms keywords) = true := by
    unfold should_skip_core
    by_cases hKe : (normalize_term tok).isEmpty = true
    · rw [if_pos hKe]
    · rw [if_neg hKe]
      by_cases hc : (existingTerms keywords).contains (normalize_term tok) = true
      · rw [if_pos hc]
      · rw [if_neg hc]
        rcases hrel with heq | hsub | hsup
        · exact absurd (List.elem_iff.mpr (heq ▸ hmem)) hc
        · exact List.any_eq_true.mpr ⟨normalize_term e.term, hmem,
            by rw [hkw_ne, hsub]; simp⟩
        · exact List.any_eq_true.mpr ⟨normalize_term e.term, hmem,
            by rw [hkw_ne, hsup]; simp⟩
  unfold run_extract_candidates
  exact foldl_candmap_preserve _ _
    (fun c row => process_repo_preserve hskip now c row) rows cands

/-- C8 witness: with the active keyword `fem`, the token `xfem` (which
contains `fem`) is never recorded while scanning a repo whose description
mentions `xfem`. -/
def demoKeywords : List KeywordEntry := [⟨"method", "fem", 1, "active"⟩]

def demoScanRows : List RepoScan := [⟨"a/b", some "great xfem toolkit", ["navier-stokes"]⟩]

theorem related_token_never_recorded_witness :
    run_extract_candidates demoKeywords demoScanRows demoCands0 "T" (normalize_term "xfem")
      = demoCands0 (normalize_term "xfem") :=
  related_token_never_recorded demoKeywords demoScanRows demoCands0 "T" "xfem"
    ⟨"method", "fem", 1, "active"⟩ (List.Mem.head _) rfl (by decide)
    (Or.inr (Or.inr (by decide)))

/-! ### Query cache, repo storage, and the harvest loop -/

/-- A row of the `queries` table. -/
structure QueryRow where
  id : Nat
  query : String
  recipe_json : String
  executed_at : Option String := none
  last_status : Option Int := none
  last_total_count : Option Int := none
  last_error : Option String := none
deriving DecidableEq, Repr

/-- A repository record as returned by the search API; the `.get(...)`
accessors of `repo_item` are modelled as optional fields, with `topics`
already defaulted to `[]` (`repo_item.get("topics") or []`). -/
structure RepoItem where
  full_name : Option String := none
  html_url : Option String := none
  url : Option String := none
  description : Option String := none
  topics : List String := []

/-- A row of the `repos` table (structured fields stand for the
corresponding `*_json` columns). -/
structure RepoRow where
  html_url : Option String
  api_url : Option String
  description : Option String
  first_seen_at : String
  last_seen_at : String
  repo_json : RepoItem
  topics : List String
  merged_tags : TagMap

/-- An append-only row of `repo_hits`. -/
structure RepoHit where
  query_id : Nat
  repo_full_name : String
  seen_at : String
  hit_tags : TagDict

/-- The persisted harvest state: the `queries` table with its autoincrement
counter, the `repos` table keyed by `full_name`, and the append-only
`repo_hits` list. -/
structure HarvestDB where
  queries : List QueryRow := []
  next_query_id : Nat := 1
  repos : String → Option RepoRow := fun _ => none
  repo_hits : List RepoHit := []

/-- Model of `db_insert_query_if_new`: `INSERT OR IGNORE` keyed by the unique query
string, then `SELECT id`.  The impossible lookup failure (`RuntimeError`)
is modelled as `none`. -/
def db_insert_query_if_new (st : HarvestDB) (q recipe : String) : HarvestDB × Option Nat :=
  let st' :=
    match st.queries.find? (fun r => r.query == q) with
    | some _ => st
    | none =>
      { st with
        queries := st.queries
          ++ [({ id := st.next_query_id, query := q, recipe_json := recipe } : QueryRow)]
        next_query_id := st.next_query_id + 1 }
  match st'.queries.find? (fun r => r.query == q) with
  | some row => (st', some row.id)
  | none => (st', none)

/-- Truthiness of an optional string column (Python `bool(r and r[0])`:
`NULL` and the empty string are both falsy). -/
def optTruthy (o : Option String) : Bool :=
  !(o.getD "").isEmpty

/-- Model of `db_query_is_executed`. -/
def db_query_is_executed (st : HarvestDB) (query_id : Nat) : Bool :=
  match st.queries.find? (fun r => r.id == query_id) with
  | some r => optTruthy r.executed_at
  | none => false

/-- Model of `db_mark_query_executed`: set `executed_at` to now and overwrite the
status/total-count/error columns on the matching row. -/
def db_mark_query_executed (st : HarvestDB) (query_id : Nat) (status : Int)
    (total_count : Option Int) (error : Option String) (now : String) : HarvestDB :=
  { st with
    queries := st.queries.map fun r : QueryRow =>
      if r.id == query_id then
        { r with executed_at := some now, last_status := some status,
                 last_total_count := total_count, last_error := error }
      else r }

/-- Pointwise update of the `repos` table. -/
def updFun (f : String → Option RepoRow) (k : String) (v : RepoRow) :
    String → Option RepoRow :=
  fun x => if x = k then some v else f x

/-- Python truthiness of `str(t).strip()`: some non-whitespace character. -/
def strip_truthy (s : String) : Bool :=
  s.data.any (fun c => !c.isWhitespace)

/-- Truncation `resp.text[:5000]` at the character-list level. -/
def strTake (s : String) (n : Nat) : String :=
  String.mk (s.data.take n)

/-- The body of `db_upsert_repo_and_hit` once a non-empty `full_name` is
known: update-or-insert the repo row (raw snapshot replaced wholesale,
topics and tags merged as sorted deduplicated unions) and append one
`repo_hits` row. -/
def db_upsert_go (st : HarvestDB) (query_id : Nat) (repo_item : RepoItem)
    (full_name : String) (hit_tags : TagDict) (now : String) : HarvestDB :=
  let incoming_topics :=
    sortDedup ((repo_item.topics.filter strip_truthy).map normalize_term)
  match st.repos full_name with
  | some row =>
    { st with
      repos := updFun st.repos full_name
        { row with
          html_url := repo_item.html_url
          api_url := repo_item.url
          description := repo_item.description
          last_seen_at := now
          repo_json := repo_item
          topics := sortDedup (row.topics ++ incoming_topics)
          merged_tags := merge_repo_tags row.merged_tags hit_tags }
      repo_hits := st.repo_hits ++ [⟨query_id, full_name, now, hit_tags⟩] }
  | none =>
    { st with
      repos := updFun st.repos full_name
        { html_url := repo_item.html_url
          api_url := repo_item.url
          description := repo_item.description
          first_seen_at := now
          last_seen_at := now
          repo_json := repo_item
          topics := incoming_topics
          merged_tags := merge_repo_tags (fun _ => []) hit_tags }
      repo_hits := st.repo_hits ++ [⟨query_id, full_name, now, hit_tags⟩] }

/-- Model of `db_upsert_repo_and_hit` from the source: bail out on a missing or
empty `full_name`, otherwise upsert and log the hit. -/
def db_upsert_repo_and_hit (st : HarvestDB) (query_id : Nat) (repo_item : RepoItem)
    (hit_tags : TagDict) (now : String) : HarvestDB :=
  match repo_item.full_name with
  | none => st
  | some full_name =>
    if full_name = "" then st
    else db_upsert_go st query_id repo_item full_name hit_tags now

/-- One parsed search response: HTTP status, raw text body, and the JSON
payload's `total_count` and `items`.  Responses are modelled as well-formed
JSON, so the per-query `except` branch of `run_harvest` (status 0 with a
captured message) is never exercised here. -/
structure SearchResponse where
  status : Int
  text : String
  total_count : Int
  items : List RepoItem

/-- Result of the paging loop: the updated state, the captured
`total_count`, the number of items merged, and the page numbers of the
search requests actually sent upstream. -/
structure PagesResult where
  db : HarvestDB
  total_count : Option Int
  collected : Nat
  requests : List Nat

/-- The `for page in range(1, pages_per_query + 1)` loop of `run_harvest`:
issue one request per page; on a non-success status record the failure
(status and truncated body) on the Query row and stop paging; on an empty
page stop; otherwise merge every item immediately and continue. -/
def run_pages (qid : Nat) (hit_tags : TagDict) (respond : Nat → SearchResponse)
    (now : String) : List Nat → HarvestDB → Option Int → Nat → PagesResult
  | [], db, tc, collected => ⟨db, tc, collected, []⟩
  | page :: rest, db, tc, collected =>
    let resp := respond page
    if resp.status ≠ 200 then
      ⟨db_mark_query_executed db qid resp.status none (some (strTake resp.text 5000)) now,
        tc, collected, [page]⟩
    else
      let tc' := match tc with | none => some resp.total_count | some v => some v
      if resp.items.isEmpty then ⟨db, tc', collected, [page]⟩
      else
        let db1 := resp.items.foldl
          (fun s item => db_upsert_repo_and_hit s qid item hit_tags now) db
        let out := run_pages qid hit_tags respond now rest db1 tc' (collected + resp.items.length)
        ⟨out.db, out.total_count, out.collected, page :: out.requests⟩

/-- Outcome of one iteration of the `run_harvest` while-loop. -/
structure IterResult where
  db : HarvestDB
  attempts : Nat
  executed_steps : Nat
  requests : List Nat

/-- One iteration of the `run_harvest` while-loop (lines 1027-1082):
`attempts += 1`; generate a query (given as `base_query`/`hit_tags`/
`recipe`); apply the numeric qualifiers; insert-or-ignore into the query
cache; if the row is already executed, `continue` without contacting the
API; otherwise page through results and afterwards mark the query executed
with status 200 and increment `executed_steps`.  A qualifier
`ValueError` propagates out as `.error`. -/
def harvest_iteration (db : HarvestDB) (attempts executed_steps : Nat)
    (base_query : String) (hit_tags : TagDict) (recipe : String) (fl : RepoFilters)
    (respond : Nat → SearchResponse) (pages_per_query : Nat) (now : String) :
    Except String IterResult :=
  match apply_repo_filters_to_query base_query fl with
  | .error e => .error e
  | .ok query =>
    match db_insert_query_if_new db query recipe with
    | (_, none) => .error "Failed to upsert query row."
    | (db1, some qid) =>
      if db_query_is_executed db1 qid then
        .ok ⟨db1, attempts + 1, executed_steps, []⟩
      else
        let out := run_pages qid hit_tags respond now (List.range' 1 pages_per_query) db1 none 0
        .ok ⟨db_mark_query_executed out.db qid 200 out.total_count none now,
          attempts + 1, executed_steps + 1, out.requests⟩

/-! ### C9: re-inserting an existing query string is a no-op -/

theorem db_insert_query_found (st : HarvestDB) (q recipe : String) (row : QueryRow)
    (h : st.queries.find? (fun r => r.query == q) = some row) :
    db_insert_query_if_new st q recipe = (st, some row.id) := by
  unfold db_insert_query_if_new
  simp only [h]

/-- C9: calling `db_insert_query_if_new` with a query string that already
has a Query row leaves the whole state (in particular that row's
`recipe_json` and `executed_at`) unchanged and returns the existing row's
id. -/
theorem insert_query_existing_noop (st : HarvestDB) (q recipe : String) (row : QueryRow)
    (h : st.queries.find? (fun r => r.query == q) = some row) :
    db_insert_query_if_new st q recipe = (st, some row.id) :=
  db_insert_query_found st q recipe row h

def demoQRow : QueryRow :=
  { id := 7, query := "cfd fem solver", recipe_json := "r0", executed_at := some "T0" }

def demoQDB : HarvestDB := { queries := [demoQRow], next_query_id := 8 }

/-- C9 witness: re-inserting `cfd fem solver` over `demoQDB` returns id 7
and changes nothing. -/
theorem insert_query_existing_noop_witness :
    db_insert_query_if_new demoQDB "cfd fem solver" "r1" = (demoQDB, some demoQRow.id) :=
  insert_query_existing_noop demoQDB "cfd fem solver" "r1" demoQRow rfl

/-! ### C10: upserts with a missing or empty full_name change nothing -/

theorem db_upsert_falsy_noop (st : HarvestDB) (query_id : Nat)
    (repo_item : RepoItem) (hit_tags : TagDict) (now : String)
    (h : repo_item.full_name = none ∨ repo_item.full_name = some "") :
    db_upsert_repo_and_hit st query_id repo_item hit_tags now = st := by
  unfold db_upsert_repo_and_hit
  rcases h with h | h <;> simp [h]

/-- C10: `db_upsert_repo_and_hit` on a `repo_item` whose `full_name` is
missing or empty returns with the state untouched: no repo row is inserted
or updated and no `repo_hits` row is appended. -/
theorem upsert_missing_full_name_noop (st : HarvestDB) (query_id : Nat)
    (repo_item : RepoItem) (hit_tags : TagDict) (now : String)
    (h : repo_item.full_name = none ∨ repo_item.full_name = some "") :
    db_upsert_repo_and_hit st query_id repo_item hit_tags now = st :=
  db_upsert_falsy_noop st query_id repo_item hit_tags now h

def demoTags : TagDict := fun _ => none

def demoItemNoName : RepoItem := {}

/-- C10 witness: an item with no `full_name` leaves `demoQDB` unchanged. -/
theorem upsert_missing_full_name_noop_witness :
    db_upsert_repo_and_hit demoQDB 1 demoItemNoName demoTags "T" = demoQDB :=
  upsert_missing_full_name_noop demoQDB 1 demoItemNoName demoTags "T" (Or.inl rfl)

/-! ### C3: a cached query costs an attempt but is never re-sent -/

/-- C3: in any `run_harvest` iteration whose drawn query (after qualifier
application) maps to a Query row with `executed_at` set, the attempts
counter is incremented but no search request is issued to the upstream
API; the state and the step counter are untouched. -/
theorem cached_query_attempt_no_request (db : HarvestDB) (attempts executed_steps : Nat)
    (base_query query : String) (hit_tags : TagDict) (recipe : String) (fl : RepoFilters)
    (respond : Nat → SearchResponse) (pages_per_query : Nat) (now : String) (row : QueryRow)
    (happ : apply_repo_filters_to_query base_query fl = .ok query)
    (hrow : db.queries.find? (fun r => r.query == query) = some row)
    (hid : db.queries.find? (fun r => r.id == row.id) = some row)
    (hexec : optTruthy row.executed_at = true) :
    harvest_iteration db attempts executed_steps base_query hit_tags recipe fl respond
      pages_per_query now
      = .ok ⟨db, attempts + 1, executed_steps, []⟩ := by
  have hexe : db_query_is_executed db row.id = true := by
    unfold db_query_is_executed
    rw [hid]
    exact hexec
  unfold harvest_iteration
  simp [happ, db_insert_query_found db query recipe row hrow, hexe]

def demoRespond : Nat → SearchResponse := fun _ => ⟨200, "", 0, []⟩

/-- C3 witness: re-drawing the already-executed `cfd fem solver` over
`demoQDB` counts the attempt (3 becomes 4), issues no request, and leaves
the state and step count unchanged. -/
theorem cached_query_attempt_no_request_witness :
    harvest_iteration demoQDB 3 1 "cfd fem solver" demoTags "r1" {} demoRespond 2 "T1"
      = .ok ⟨demoQDB, 3 + 1, 1, []⟩ :=
  cached_query_attempt_no_request demoQDB 3 1 "cfd fem solver" "cfd fem solver" demoTags
    "r1" {} demoRespond 2 "T1" demoQRow rfl rfl rfl rfl

/-! ### C2: upserts only ever grow topics and tag sets -/

/-- The stored topic set of an optional repo row (`∅` when absent). -/
def repoTopics (o : Option RepoRow) : Finset String :=
  match o with
  | some r => r.topics.toFinset
  | none => ∅

/-- The stored merged-tags term set of an optional repo row for one
category (`∅` when absent). -/
def repoTagSet (o : Option RepoRow) (cat : String) : Finset String :=
  match o with
  | some r => (r.merged_tags cat).toFinset
  | none => ∅

theorem merge_repo_tags_mono (E : TagMap) (h : TagDict) (k : String) :
    (E k).toFinset ⊆ (merge_repo_tags E h k).toFinset := by
  rw [merge_repo_tags_toFinset]
  exact Finset.subset_union_left

theorem updFun_self (f : String → Option RepoRow) (k : String) (v : RepoRow) :
    updFun f k v k = some v := by
  unfold updFun
  rw [if_pos rfl]

theorem updFun_ne {x k : String} (f : String → Option RepoRow) (v : RepoRow)
    (hx : x ≠ k) : updFun f k v x = f x := by
  unfold updFun
  rw [if_neg hx]

theorem db_upsert_go_repos_existing {st : HarvestDB} {full_name : String} {row : RepoRow}
    (hrow : st.repos full_name = some row) (query_id : Nat) (repo_item : RepoItem)
    (hit_tags : TagDict) (now : String) :
    (db_upsert_go st query_id repo_item full_name hit_tags now).repos
      = updFun st.repos full_name
          { row with
            html_url := repo_item.html_url
            api_url := repo_item.url
            description := repo_item.description
            last_seen_at := now
            repo_json := repo_item
            topics := sortDedup (row.topics
              ++ sortDedup ((repo_item.topics.filter strip_truthy).map normalize_term))
            merged_tags := merge_repo_tags row.merged_tags hit_tags } := by
  unfold db_upsert_go
  rw [hrow]

theorem db_upsert_go_repos_absent {st : HarvestDB} {full_name : String}
    (hrow : st.repos full_name = none) (query_id : Nat) (repo_item : RepoItem)
    (hit_tags : TagDict) (now : String) :
    (db_upsert_go st query_id repo_item full_name hit_tags now).repos
      = updFun st.repos full_name
          { html_url := repo_item.html_url
            api_url := repo_item.url
            description := repo_item.description
            first_seen_at := now
            last_seen_at := now
            repo_json := repo_item
            topics := sortDedup ((repo_item.topics.filter strip_truthy).map normalize_term)
            merged_tags := merge_repo_tags (fun _ => []) hit_tags } := by
  unfold db_upsert_go
  rw [hrow]

theorem db_upsert_go_mono (st : HarvestDB) (query_id : Nat) (repo_item : RepoItem)
    (full_name : String) (hit_tags : TagDict) (now : String) (name cat : String) :
    repoTopics (st.repos name)
      ⊆ repoTopics ((db_upsert_go st query_id repo_item full_name hit_tags now).repos name)
    ∧ repoTagSet (st.repos name) cat
      ⊆ repoTagSet ((db_upsert_go st query_id repo_item full_name hit_tags now).repos name) cat := by
  by_cases hname : name = full_name
  · subst hname
    cases hrow : st.repos name with
    | some row =>
      rw [db_upsert_go_repos_existing hrow, updFun_self]
      constructor
      · simp only [repoTopics]
        rw [sortDedup_toFinset, List.toFinset_append]
        exact Finset.subset_union_left
      · simp only [repoTagSet]
        exact merge_repo_tags_mono _ _ _
    | none =>
      rw [db_upsert_go_repos_absent hrow, updFun_self]
      exact ⟨by simp [repoTopics], by simp [repoTagSet]⟩
  · cases hrow : st.repos full_name with
    | some row =>
      rw [db_upsert_go_repos_existing hrow, updFun_ne _ _ hname]
      exact ⟨subset_rfl, subset_rfl⟩
    | none =>
      rw [db_upsert_go_repos_absent hrow, updFun_ne _ _ hname]
      exact ⟨subset_rfl, subset_rfl⟩

theorem db_upsert_eq_go {repo_item : RepoItem} {full_name : String}
    (hfn : repo_item.full_name = some full_name) (hne : ¬full_name = "")
    (st : HarvestDB) (query_id : Nat) (hit_tags : TagDict) (now : String) :
    db_upsert_repo_and_hit st query_id repo_item hit_tags now
      = db_upsert_go st query_id repo_item full_name hit_tags now := by
  unfold db_upsert_repo_and_hit
  simp only [hfn, if_neg hne]

theorem db_upsert_mono (st : HarvestDB) (query_id : Nat) (repo_item : RepoItem)
    (hit_tags : TagDict) (now : String) (name cat : String) :
    repoTopics (st.repos name)
      ⊆ repoTopics ((db_upsert_repo_and_hit st query_id repo_item hit_tags now).repos name)
    ∧ repoTagSet (st.repos name) cat
      ⊆ repoTagSet ((db_upsert_repo_and_hit st query_id repo_item hit_tags now).repos name) cat := by
  cases hfn : repo_item.full_name with
  | none =>
    rw [db_upsert_falsy_noop st query_id repo_item hit_tags now (Or.inl hfn)]
    exact ⟨subset_rfl, subset_rfl⟩
  | some full_name =>
    by_cases hempty : full_name = ""
    · rw [db_upsert_falsy_noop st query_id repo_item hit_tags now (Or.inr (hempty ▸ hfn))]
      exact ⟨subset_rfl, subset_rfl⟩
    · rw [db_upsert_eq_go hfn hempty]
      exact db_upsert_go_mono st query_id repo_item full_name hit_tags now name cat

/-- One recorded call to `db_upsert_repo_and_hit`. -/
structure UpsertCall where
  query_id : Nat
  repo_item : RepoItem
  hit_tags : TagDict
  now : String

/-- A finite sequence of `db_upsert_repo_and_hit` calls applied in order. -/
def applyUpserts (st : HarvestDB) (calls : List UpsertCall) : HarvestDB :=
  calls.foldl (fun s c => db_upsert_repo_and_hit s c.query_id c.repo_item c.hit_tags c.now) st

/-- C2: across any finite sequence of `db_upsert_repo_and_hit` calls, the
stored topics set of any repository row and, for every category, its stored
merged-tags term set are supersets of what they were before the sequence
(`∅` standing for an absent row): upserts only ever add elements. -/
theorem upserts_monotone (st : HarvestDB) (calls : List UpsertCall) (name cat : String) :
    repoTopics (st.repos name) ⊆ repoTopics ((applyUpserts st calls).repos name)
    ∧ repoTagSet (st.repos name) cat ⊆ repoTagSet ((applyUpserts st calls).repos name) cat := by
  induction calls generalizing st with
  | nil => exact ⟨subset_rfl, subset_rfl⟩
  | cons c cs ih =>
    have hstep := db_upsert_mono st c.query_id c.repo_item c.hit_tags c.now name cat
    have hrest := ih (db_upsert_repo_and_hit st c.query_id c.repo_item c.hit_tags c.now)
    exact ⟨hstep.1.trans hrest.1, hstep.2.trans hrest.2⟩

/-! ### C1: the 403-on-page-1 scenario (the code overwrites the failure) -/

/-- An empty harvest state. -/
def c1db : HarvestDB := {}

/-- Hit tags of the drawn DMI query `cfd fem solver`. -/
def c1tags : TagDict := fun k =>
  if k = "domain" then some "cfd"
  else if k = "method" then some "fem"
  else if k = "intent" then some "solver"
  else none

/-- The HTTP oracle for C1: every paged search request returns HTTP 403
with a non-empty body. -/
def c1respond : Nat → SearchResponse :=
  fun _ => ⟨403, "API rate limit exceeded for user", 0, []⟩

/-- C1 evidence: running one harvest iteration on a fresh query whose
page-1 response is HTTP 403 ends with the Query row holding
`executed_at = now` and ZERO repositories merged — but `last_status = 200`
and `last_error = NULL`, because after the failure is recorded and paging
stops, `run_harvest` unconditionally re-marks the query with status 200
and no error.  The claimed `last_status = 403` / body-prefix `last_error`
(which `db_mark_query_executed` did write first) is overwritten. -/
theorem harvest_403_trace :
    (harvest_iteration c1db 0 0 "cfd fem solver" c1tags "recipe0" {} c1respond 2 "T").map
        (fun res =>
          (res.db.queries.map fun r =>
            (r.query, r.executed_at, r.last_status, r.last_total_count, r.last_error),
           res.db.repo_hits.length, res.requests, res.attempts, res.executed_steps))
      = .ok ([("cfd fem solver", some "T", some 200, none, none)], 0, [1], 1, 1) := rfl

end GithubCae
